import Mathlib

/-!
Verification development for an elastic worker-thread pool written in Rust
(src/thread_pool.rs) backed by a hand-written doubly-linked list
(src/link_list.rs).  The Rust code is shallowly embedded: the linked list is
observed through the sequence of its elements (front = list head), the pool
controller through an explicit record of its counters, queue and worker
registry, and the concurrent worker loop through per-step functions plus a
trace (fold over steps) model.  Blocking loops (`wait_for_completion`, the
drop-time active drain) are embedded as fuel-bounded polls over an observation
stream.
-/

namespace LinkList

/-- Model of `LinkedList::push_front`: the new element becomes the front. -/
def push_front (l : List Nat) (x : Nat) : List Nat := x :: l

/-- Model of `LinkedList::push_back`: the new element becomes the back. -/
def push_back (l : List Nat) (x : Nat) : List Nat := l ++ [x]

/-- Model of `LinkedList::pop_front`: returns the front payload (or `none` on
an empty list) together with the remaining list. -/
def pop_front : List Nat → Option Nat × List Nat
  | [] => (none, [])
  | x :: xs => (some x, xs)

/-- Model of `LinkedList::pop_back`: returns the back payload (or `none` on an
empty list) together with the remaining list. -/
def pop_back : List Nat → Option Nat × List Nat
  | [] => (none, [])
  | [x] => (some x, [])
  | x :: y :: xs =>
    let r := pop_back (y :: xs)
    (r.1, x :: r.2)

/-- Model of `LinkedList::len`. -/
def len (l : List Nat) : Nat := l.length

/-- Element-wise equality of the two iterators, as computed by
`self.iter().eq(other.iter())` in `impl PartialEq for LinkedList`. -/
def elemsEq : List Nat → List Nat → Bool
  | [], [] => true
  | x :: xs, y :: ys => x == y && elemsEq xs ys
  | _, _ => false

/-- Model of `impl PartialEq for LinkedList`: `self.len() == other.len() &&
self.iter().eq(other.iter())` — the length check first, then element-wise. -/
def listEq (a b : List Nat) : Bool := (len a == len b) && elemsEq a b

/-- Model of `impl Ord for LinkedList`: `self.iter().cmp(other.iter())`.
Rust's `Iterator::cmp` is lexicographic: it compares element-wise in
iteration order and the iterator that runs out first is the smaller one. -/
def cmp : List Nat → List Nat → Ordering
  | [], [] => Ordering.eq
  | [], _ :: _ => Ordering.lt
  | _ :: _, [] => Ordering.gt
  | x :: xs, y :: ys =>
    match compare x y with
    | Ordering.eq => cmp xs ys
    | o => o

/-- Ordering for linked lists as the specification words it: compare by length
first, and only on equal lengths element-wise.  Written from the spec's words
solely to be compared against `cmp`, the embedding of the code. -/
def cmpByLengthFirst (a b : List Nat) : Ordering :=
  match compare a.length b.length with
  | Ordering.eq => cmp a b
  | o => o

/-- Model of `impl Hash for LinkedList`: the sequence of values fed to the
hasher — `self.len().hash(state)` first, then each element in iteration
order. -/
def hashFeed (l : List Nat) : List Nat := len l :: l

/-- Model of `CursorMut`: the borrowed list never changes under `move_next`,
so the cursor state is the pointed-to node (identified by its position from
the front, `none` for the ghost position) plus the tracked `index` field. -/
structure Cursor where
  cur : Option Nat
  index : Option Nat
deriving DecidableEq, Repr

/-- Model of `LinkedList::cursor_mut`: a fresh cursor starts at the ghost
position with no index. -/
def freshCursor : Cursor := { cur := none, index := none }

/-- Model of `CursorMut::move_next`.  From a node, follow its `back` link
(present exactly when the node is not the last one); reaching the end parks
the cursor at the ghost position with `index = None`.  From the ghost
position, re-enter at `list.front`; the `index` field is set to `Some(0)`
only when that front node exists, and is left unchanged otherwise. -/
def moveNext (l : List Nat) (c : Cursor) : Cursor :=
  match c.cur with
  | some i =>
    if i + 1 < l.length then
      { cur := some (i + 1), index := c.index.map (· + 1) }
    else
      { cur := none, index := none }
  | none =>
    if 0 < l.length then
      { cur := some 0, index := some 0 }
    else
      { cur := none, index := c.index }

/-- Iterated `move_next` from a fresh cursor. -/
def moveNextN (l : List Nat) : Nat → Cursor
  | 0 => freshCursor
  | k + 1 => moveNext l (moveNextN l k)

/-- Operations of a push/pop trace at either end of the queue storage. -/
inductive DequeOp where
  | pushF (x : Nat)
  | pushB (x : Nat)
  | popF
  | popB
deriving DecidableEq, Repr

/-- Run a trace of deque operations from a start list, counting pushes and
successful pops: the result is (final list, pushes, successful pops). -/
def runCount : List DequeOp → List Nat → List Nat × Nat × Nat
  | [], l => (l, 0, 0)
  | DequeOp.pushF x :: ops, l =>
    let r := runCount ops (push_front l x)
    (r.1, r.2.1 + 1, r.2.2)
  | DequeOp.pushB x :: ops, l =>
    let r := runCount ops (push_back l x)
    (r.1, r.2.1 + 1, r.2.2)
  | DequeOp.popF :: ops, l =>
    let p := pop_front l
    let r := runCount ops p.2
    (r.1, r.2.1, r.2.2 + (if p.1.isSome then 1 else 0))
  | DequeOp.popB :: ops, l =>
    let p := pop_back l
    let r := runCount ops p.2
    (r.1, r.2.1, r.2.2 + (if p.1.isSome then 1 else 0))

/-- Drain a list from the front by repeated `pop_front`, collecting the
returned payloads in pop order (fuel-bounded). -/
def popAllFrontFuel : Nat → List Nat → List Nat
  | 0, _ => []
  | fuel + 1, l =>
    match pop_front l with
    | (some x, rest) => x :: popAllFrontFuel fuel rest
    | (none, _) => []

/-- Drain a list from the back by repeated `pop_back`, collecting the
returned payloads in pop order (fuel-bounded). -/
def popAllBackFuel : Nat → List Nat → List Nat
  | 0, _ => []
  | fuel + 1, l =>
    match pop_back l with
    | (some x, rest) => x :: popAllBackFuel fuel rest
    | (none, _) => []

end LinkList

namespace ThreadPool

/-- State of the pool controller of src/thread_pool.rs: the guarded task
queue (tasks identified by opaque numbers), the worker registry (the key set
of the `threads` HashMap, in insertion order), the `max_threads` bound, and
the shared atomic counters. -/
structure PoolState where
  queue : List Nat
  registry : List Nat
  maxThreads : Nat
  nextThreadId : Nat
  quit : Bool
  currentThreads : Nat
  idleThreads : Nat
  activeTasks : Nat
  submittedTasks : Nat
  completedTasks : Nat
deriving DecidableEq, Repr

/-- Model of `ThreadPool::with_max_threads`: every field empty or zero, the
given bound stored as is (any value, zero included, is accepted). -/
def withMaxThreads (m : Nat) : PoolState :=
  { queue := []
    registry := []
    maxThreads := m
    nextThreadId := 0
    quit := false
    currentThreads := 0
    idleThreads := 0
    activeTasks := 0
    submittedTasks := 0
    completedTasks := 0 }

/-- Model of `ThreadPool::new`.  The `assert!(threads > 0)` on an explicit
bound is a construction-time panic, embedded as `Except.error`; an absent
bound falls back to the host CPU count, an external capability passed in as
`cpuCount`. -/
def new (cpuCount : Nat) (maxThreads : Option Nat) : Except String PoolState :=
  match maxThreads with
  | some threads =>
    if 0 < threads then Except.ok (withMaxThreads threads)
    else Except.error "Thread pool size must be greater than 0"
  | none => Except.ok (withMaxThreads cpuCount)

/-- Model of `ThreadPool::spawn_thread`'s controller-side effects: take the
next thread id (`next_thread_id.fetch_add(1)`) and insert the new worker's
handle into the registry. -/
def spawnThread (s : PoolState) : PoolState :=
  { s with
    nextThreadId := s.nextThreadId + 1
    registry := s.registry ++ [s.nextThreadId] }

/-- Model of `ThreadPool::try_spawn_thread`.  The CAS loop either observes
`current_threads >= max_threads` and returns false without any effect, or
increments `current_threads` from the observed value (strictly below the
bound) by a successful compare-and-swap and spawns exactly one worker; a
failed CAS only re-reads, so the loop's sequential semantics is this
conditional. -/
def trySpawnThread (s : PoolState) : Bool × PoolState :=
  if s.maxThreads ≤ s.currentThreads then (false, s)
  else (true, spawnThread { s with currentThreads := s.currentThreads + 1 })

/-- Model of `ThreadPool::submit`: push the task at the back of the queue
under the lock, increment `submitted_tasks`, signal one waiter, and attempt
elastic growth only when no thread is currently idle. -/
def submit (s : PoolState) (t : Nat) : PoolState :=
  let s1 := { s with
    queue := s.queue ++ [t]
    submittedTasks := s.submittedTasks + 1 }
  if s1.idleThreads = 0 then (trySpawnThread s1).2 else s1

/-- Atomic steps of the pool's concurrent execution, as performed by
submitters and live workers.  Worker steps are enabled only in states where
such a worker can exist (e.g. a retirement is performed by a live worker, so
`current_threads` is positive); a disabled step leaves the state unchanged. -/
inductive PoolStep where
  | submitTask (t : Nat)
  | beginIdle
  | retireOnTimeout (tid : Nat)
  | retireOnQuit (tid : Nat)
  | wakeDrain
  | finishTask
  | setQuit
deriving DecidableEq, Repr

/-- Effect of one atomic step on the pool state, following the worker loop of
`ThreadPool::spawn_thread` and the controller operations:
`beginIdle` is `idle_threads.fetch_add(1)` on entering the wait;
`retireOnTimeout` is the timed-out exit (idle and current decremented, best
effort registry removal); `retireOnQuit` is the quit-with-empty-queue exit
(idle was already decremented on leaving the wait loop); `wakeDrain` pops the
front task and marks it active; `finishTask` retires an active task into the
completed counter. -/
def applyStep (s : PoolState) : PoolStep → PoolState
  | PoolStep.submitTask t => submit s t
  | PoolStep.beginIdle =>
    if s.idleThreads < s.currentThreads then
      { s with idleThreads := s.idleThreads + 1 }
    else s
  | PoolStep.retireOnTimeout tid =>
    if 0 < s.idleThreads ∧ 0 < s.currentThreads then
      { s with
        idleThreads := s.idleThreads - 1
        currentThreads := s.currentThreads - 1
        registry := s.registry.erase tid }
    else s
  | PoolStep.retireOnQuit tid =>
    if 0 < s.currentThreads then
      { s with
        currentThreads := s.currentThreads - 1
        registry := s.registry.erase tid }
    else s
  | PoolStep.wakeDrain =>
    match s.queue with
    | [] => s
    | _ :: rest =>
      if 0 < s.idleThreads then
        { s with
          idleThreads := s.idleThreads - 1
          queue := rest
          activeTasks := s.activeTasks + 1 }
      else s
  | PoolStep.finishTask =>
    if 0 < s.activeTasks then
      { s with
        activeTasks := s.activeTasks - 1
        completedTasks := s.completedTasks + 1 }
    else s
  | PoolStep.setQuit => { s with quit := true }

/-- Run a trace of atomic steps. -/
def run (steps : List PoolStep) (s : PoolState) : PoolState :=
  steps.foldl applyStep s

/-- Phase a worker enters after waking from its bounded idle wait. -/
inductive WakePhase where
  | draining (t : Nat)
  | retiring
  | keepWaiting
  | panicked
deriving DecidableEq, Repr

/-- Queue and idle-counter state a wake handler leaves behind, together with
the phase entered. -/
structure WakeOutcome where
  phase : WakePhase
  queue : List Nat
  idle : Nat
deriving DecidableEq, Repr

/-- Model of the wake handling in the worker loop of
`ThreadPool::spawn_thread`.  After `wait_timeout` returns: a timed-out wait
retires immediately (decrementing the idle counter; the queue is not
re-examined).  Otherwise the wait loop's condition is re-checked: with an
empty queue and quit unset the worker waits again; on leaving the loop the
idle counter is decremented, then quit with an empty queue retires, and
otherwise the front task is popped (`pop_front().expect(..)` — a panic,
modeled as `panicked`, if the queue were empty) and the worker drains. -/
def onWake (timedOut quitFlag : Bool) (queue : List Nat) (idle : Nat) :
    WakeOutcome :=
  if timedOut then
    { phase := WakePhase.retiring, queue := queue, idle := idle - 1 }
  else if queue.isEmpty && !quitFlag then
    { phase := WakePhase.keepWaiting, queue := queue, idle := idle }
  else if quitFlag && queue.isEmpty then
    { phase := WakePhase.retiring, queue := queue, idle := idle - 1 }
  else
    match queue with
    | [] => { phase := WakePhase.panicked, queue := [], idle := idle - 1 }
    | t :: rest => { phase := WakePhase.draining t, queue := rest, idle := idle - 1 }

/-- Result of one pass of the task-execution tail of the worker loop:
either the loop continues into the next iteration, or the thread unwinds. -/
inductive LoopResult where
  | continueLoop (active completed : Nat)
  | unwound (active completed : Nat)
deriving DecidableEq, Repr

/-- Model of the task execution in the worker loop:
`active_tasks.fetch_add(1); task(); active_tasks.fetch_sub(1);
completed_tasks.fetch_add(1)`.  There is no catch around `task()`: a
panicking task unwinds out of the loop after the increment of
`active_tasks`, skipping the decrement and the completed-counter update. -/
def runTask (active completed : Nat) (panics : Bool) : LoopResult :=
  let a1 := active + 1
  if panics then LoopResult.unwound a1 completed
  else LoopResult.continueLoop (a1 - 1) (completed + 1)

/-- Fuel-bounded poll: the index of the first observation satisfying `p`,
starting at index `k`. -/
def pollUntil (p : Nat → Bool) : Nat → Nat → Option Nat
  | 0, _ => none
  | fuel + 1, k => if p k then some k else pollUntil p fuel (k + 1)

/-- Model of `ThreadPool::wait_for_completion`: snapshot `submitted_tasks`
once (the `snapshot` argument), then spin until a load of `completed_tasks`
(the observation stream `completedAt`) reaches the snapshot; the result is
the index of the poll at which the call returns. -/
def wait_for_completion (snapshot : Nat) (completedAt : Nat → Nat)
    (fuel : Nat) : Option Nat :=
  pollUntil (fun k => decide (snapshot ≤ completedAt k)) fuel 0

/-- Events of the shutdown sequence in `impl Drop for ThreadPool`. -/
inductive DropEvent where
  | setQuitFlag
  | notifyAll
  | joinThread (tid : Nat)
  | drainActive
deriving DecidableEq, Repr

/-- Model of the join loop of `Drop`: handles are drained from the registry
and joined in order; `join().expect(..)` propagates a worker's fatal failure
(`joinOk tid = false`), stopping the sequence at the failing handle. -/
def joinSeq (reg : List Nat) (joinOk : Nat → Bool) :
    List DropEvent × Except Nat Unit :=
  match reg with
  | [] => ([], Except.ok ())
  | h :: rest =>
    if joinOk h then
      let r := joinSeq rest joinOk
      (DropEvent.joinThread h :: r.1, r.2)
    else ([DropEvent.joinThread h], Except.error h)

/-- Model of `impl Drop for ThreadPool`: set the quit flag, wake every
blocked worker (`notify_all`), drain the registry joining every handle
(propagating a failure), then block until `active_tasks` reaches zero.  The
result is the event trace, the join outcome, the final controller state
(registry emptied by `drain()`, quit set), and the index of the poll at
which the active-task drain returned. -/
def dropRun (s : PoolState) (joinOk : Nat → Bool) (activeAt : Nat → Nat)
    (fuel : Nat) :
    List DropEvent × Except Nat Unit × PoolState × Option Nat :=
  let s1 := { s with quit := true }
  let j := joinSeq s1.registry joinOk
  let s2 := { s1 with registry := [] }
  match j.2 with
  | Except.error h =>
    (DropEvent.setQuitFlag :: DropEvent.notifyAll :: j.1, Except.error h, s2, none)
  | Except.ok _ =>
    (DropEvent.setQuitFlag :: DropEvent.notifyAll :: (j.1 ++ [DropEvent.drainActive]),
     Except.ok (), s2,
     pollUntil (fun k => decide (activeAt k = 0)) fuel 0)

end ThreadPool

namespace LinkList

theorem elemsEq_iff : ∀ a b : List Nat, elemsEq a b = true ↔ a = b := by
  intro a
  induction a with
  | nil => intro b; cases b <;> simp [elemsEq]
  | cons x xs ih =>
    intro b
    cases b with
    | nil => simp [elemsEq]
    | cons y ys => simp [elemsEq, ih]

theorem listEq_iff (a b : List Nat) : listEq a b = true ↔ a = b := by
  constructor
  · intro h
    simp only [listEq, Bool.and_eq_true] at h
    exact (elemsEq_iff a b).1 h.2
  · intro h
    subst h
    simp [listEq, len, (elemsEq_iff a a).2 rfl]

theorem cmp_eq_iff : ∀ a b : List Nat, cmp a b = Ordering.eq ↔ a = b := by
  intro a
  induction a with
  | nil => intro b; cases b <;> simp [cmp]
  | cons x xs ih =>
    intro b
    cases b with
    | nil => simp [cmp]
    | cons y ys =>
      simp only [cmp]
      cases h : compare x y with
      | lt =>
        have hxy := Nat.compare_eq_lt.1 h
        dsimp only
        constructor
        · intro hc; exact absurd hc (by decide)
        · intro hc
          cases hc
          omega
      | eq =>
        have hxy := Nat.compare_eq_eq.1 h
        subst hxy
        dsimp only
        simp [ih ys]
      | gt =>
        have hxy := Nat.compare_eq_gt.1 h
        dsimp only
        constructor
        · intro hc; exact absurd hc (by decide)
        · intro hc
          cases hc
          omega

theorem cmp_lt_iff_gt : ∀ a b : List Nat, cmp a b = Ordering.lt ↔ cmp b a = Ordering.gt := by
  intro a
  induction a with
  | nil => intro b; cases b <;> simp [cmp]
  | cons x xs ih =>
    intro b
    cases b with
    | nil => simp [cmp]
    | cons y ys =>
      simp only [cmp]
      cases h : compare x y with
      | lt =>
        have hxy := Nat.compare_eq_lt.1 h
        rw [Nat.compare_eq_gt.2 hxy]
        dsimp only
        simp
      | eq =>
        have hxy := Nat.compare_eq_eq.1 h
        subst hxy
        rw [Nat.compare_eq_eq.2 rfl]
        dsimp only
        exact ih ys
      | gt =>
        have hxy := Nat.compare_eq_gt.1 h
        rw [Nat.compare_eq_lt.2 hxy]
        dsimp only
        simp

theorem cmp_prefix_lt : ∀ (a : List Nat) (x : Nat) (ys : List Nat),
    cmp a (a ++ x :: ys) = Ordering.lt := by
  intro a
  induction a with
  | nil => intro x ys; simp [cmp]
  | cons h t ih =>
    intro x ys
    simp only [List.cons_append, cmp]
    rw [Nat.compare_eq_eq.2 rfl]
    exact ih x ys

theorem pop_back_append : ∀ (l : List Nat) (x : Nat), pop_back (l ++ [x]) = (some x, l) := by
  intro l
  induction l with
  | nil => intro x; rfl
  | cons a t ih =>
    intro x
    cases t with
    | nil => rfl
    | cons b t2 =>
      have h2 := ih x
      simp only [List.cons_append] at h2 ⊢
      simp only [pop_back, h2]

theorem popAllFrontFuel_eq : ∀ (n : Nat) (l : List Nat), l.length ≤ n →
    popAllFrontFuel n l = l := by
  intro n
  induction n with
  | zero =>
    intro l h
    have : l = [] := List.eq_nil_of_length_eq_zero (Nat.le_zero.1 h)
    subst this; rfl
  | succ n ih =>
    intro l h
    cases l with
    | nil => rfl
    | cons a t =>
      simp only [popAllFrontFuel, pop_front]
      rw [ih t (by simp at h; omega)]

theorem popAllBackFuel_eq : ∀ (n : Nat) (l : List Nat), l.length ≤ n →
    popAllBackFuel n l = l.reverse := by
  intro n
  induction n with
  | zero =>
    intro l h
    have : l = [] := List.eq_nil_of_length_eq_zero (Nat.le_zero.1 h)
    subst this; rfl
  | succ n ih =>
    intro l h
    rcases List.eq_nil_or_concat l with rfl | ⟨t, y, rfl⟩
    · rfl
    · simp only [List.concat_eq_append] at h ⊢
      simp only [popAllBackFuel, pop_back_append]
      rw [ih t (by simp at h; omega)]
      simp

theorem foldl_push_back : ∀ (xs l : List Nat), List.foldl push_back l xs = l ++ xs := by
  intro xs
  induction xs with
  | nil => intro l; simp
  | cons x t ih =>
    intro l
    simp only [List.foldl_cons, ih, push_back]
    simp

theorem foldl_push_front : ∀ (xs l : List Nat), List.foldl push_front l xs = xs.reverse ++ l := by
  intro xs
  induction xs with
  | nil => intro l; simp
  | cons x t ih =>
    intro l
    simp only [List.foldl_cons, ih, push_front]
    simp

theorem runCount_balance : ∀ (ops : List DequeOp) (l : List Nat),
    (runCount ops l).1.length + (runCount ops l).2.2 = l.length + (runCount ops l).2.1 := by
  intro ops
  induction ops with
  | nil => intro l; simp [runCount]
  | cons op t ih =>
    intro l
    cases op with
    | pushF x =>
      have h := ih (x :: l)
      simp only [runCount, push_front, List.length_cons] at h ⊢
      omega
    | pushB x =>
      have h := ih (l ++ [x])
      simp only [runCount, push_back, List.length_append, List.length_singleton] at h ⊢
      omega
    | popF =>
      cases l with
      | nil =>
        have h := ih []
        simp only [runCount, pop_front]
        simpa using h
      | cons a rest =>
        have h := ih rest
        simp only [runCount, pop_front]
        simp only [List.length_cons]
        simp at h ⊢
        omega
    | popB =>
      rcases List.eq_nil_or_concat l with rfl | ⟨t2, y, rfl⟩
      · have h := ih []
        simp only [runCount, pop_back]
        simpa using h
      · have h := ih t2
        simp only [List.concat_eq_append]
        simp only [runCount, pop_back_append]
        simp at h ⊢
        omega

theorem moveNextN_pos : ∀ (l : List Nat) (k : Nat), k < l.length →
    moveNextN l (k + 1) = { cur := some k, index := some k } := by
  intro l k
  induction k with
  | zero =>
    intro h
    simp [moveNextN, moveNext, freshCursor, h]
  | succ k ih =>
    intro h
    have hk : k < l.length := Nat.lt_of_succ_lt h
    rw [moveNextN, ih hk]
    simp only [moveNext]
    rw [if_pos h]
    simp

theorem cursor_cycle (l : List Nat) (h : l ≠ []) :
    (moveNextN l (l.length + 1)).index = none
    ∧ (moveNextN l (l.length + 1)).cur = none
    ∧ moveNextN l (l.length + 2) = { cur := some 0, index := some 0 } := by
  have hlen : 0 < l.length := List.length_pos.2 h
  have hlast : moveNextN l l.length =
      { cur := some (l.length - 1), index := some (l.length - 1) } := by
    have h1 : l.length - 1 + 1 = l.length := by omega
    rw [← h1]
    exact moveNextN_pos l (l.length - 1) (by omega)
  have hghost : moveNextN l (l.length + 1) = { cur := none, index := none } := by
    show moveNext l (moveNextN l l.length) = _
    rw [hlast]
    simp only [moveNext]
    rw [if_neg (by omega)]
  refine ⟨by rw [hghost], by rw [hghost], ?_⟩
  show moveNext l (moveNextN l (l.length + 1)) = _
  rw [hghost]
  simp [moveNext, hlen]

end LinkList

namespace ThreadPool

theorem applyStep_maxThreads (s : PoolState) (p : PoolStep) :
    (applyStep s p).maxThreads = s.maxThreads := by
  cases p with
  | submitTask t =>
    simp only [applyStep, submit, trySpawnThread, spawnThread]
    split <;> [skip; rfl]
    split <;> rfl
  | beginIdle => simp only [applyStep]; split <;> rfl
  | retireOnTimeout tid => simp only [applyStep]; split <;> rfl
  | retireOnQuit tid => simp only [applyStep]; split <;> rfl
  | wakeDrain =>
    simp only [applyStep]
    split
    · rfl
    · split <;> rfl
  | finishTask => simp only [applyStep]; split <;> rfl
  | setQuit => rfl

theorem applyStep_current_le (s : PoolState) (p : PoolStep)
    (h : s.currentThreads ≤ s.maxThreads) :
    (applyStep s p).currentThreads ≤ s.maxThreads := by
  cases p with
  | submitTask t =>
    simp only [applyStep, submit, trySpawnThread, spawnThread]
    split
    · split
      · simpa using h
      · rename_i hlt
        simp only at hlt ⊢
        omega
    · simpa using h
  | beginIdle => simp only [applyStep]; split <;> simpa using h
  | retireOnTimeout tid =>
    simp only [applyStep]
    split
    · simp only; omega
    · simpa using h
  | retireOnQuit tid =>
    simp only [applyStep]
    split
    · simp only; omega
    · simpa using h
  | wakeDrain =>
    simp only [applyStep]
    split
    · simpa using h
    · split <;> simpa using h
  | finishTask => simp only [applyStep]; split <;> simpa using h
  | setQuit => simpa using h

theorem run_current_le : ∀ (steps : List PoolStep) (s : PoolState),
    s.currentThreads ≤ s.maxThreads →
    (run steps s).currentThreads ≤ s.maxThreads := by
  intro steps
  induction steps with
  | nil => intro s h; simpa [run] using h
  | cons p t ih =>
    intro s h
    have h1 := applyStep_current_le s p h
    have h2 := applyStep_maxThreads s p
    have := ih (applyStep s p) (by rw [h2]; exact h1)
    rw [h2] at this
    simpa [run] using this

theorem submit_maxZero (s : PoolState) (t : Nat) (h : s.maxThreads = 0) :
    submit s t =
      { s with queue := s.queue ++ [t], submittedTasks := s.submittedTasks + 1 } := by
  have htry : trySpawnThread
      { s with queue := s.queue ++ [t], submittedTasks := s.submittedTasks + 1 } =
      (false, { s with queue := s.queue ++ [t], submittedTasks := s.submittedTasks + 1 }) := by
    simp [trySpawnThread, h]
  simp only [submit, htry]
  split <;> rfl

theorem pollUntil_some (p : Nat → Bool) : ∀ (fuel k j : Nat),
    pollUntil p fuel k = some j →
    p j = true ∧ ∀ i, k ≤ i → i < j → p i = false := by
  intro fuel
  induction fuel with
  | zero => intro k j h; simp [pollUntil] at h
  | succ fuel ih =>
    intro k j h
    by_cases hp : p k
    · simp [pollUntil, hp] at h
      subst h
      exact ⟨hp, fun i h1 h2 => absurd (Nat.lt_of_le_of_lt h1 h2) (Nat.lt_irrefl _)⟩
    · simp [pollUntil, hp] at h
      obtain ⟨hj, hall⟩ := ih (k + 1) j h
      refine ⟨hj, fun i h1 h2 => ?_⟩
      rcases Nat.eq_or_lt_of_le h1 with rfl | hlt
      · exact Bool.not_eq_true _ ▸ (by simpa using hp)
      · exact hall i hlt h2

theorem pollUntil_here (p : Nat → Bool) (fuel k : Nat) (h : p k = true) :
    pollUntil p (fuel + 1) k = some k := by
  simp [pollUntil, h]

theorem joinSeq_all_ok : ∀ (reg : List Nat) (joinOk : Nat → Bool),
    (∀ h ∈ reg, joinOk h = true) →
    joinSeq reg joinOk = (reg.map DropEvent.joinThread, Except.ok ()) := by
  intro reg
  induction reg with
  | nil => intro joinOk _; rfl
  | cons a t ih =>
    intro joinOk hall
    have ha : joinOk a = true := hall a (List.mem_cons_self a t)
    simp only [joinSeq, ha, if_pos]
    rw [ih joinOk (fun x hx => hall x (List.mem_cons_of_mem a hx))]
    simp

theorem joinSeq_error_mem : ∀ (reg : List Nat) (joinOk : Nat → Bool) (tid : Nat),
    (joinSeq reg joinOk).2 = Except.error tid →
    tid ∈ reg ∧ joinOk tid = false := by
  intro reg
  induction reg with
  | nil => intro joinOk tid h; simp [joinSeq] at h
  | cons a t ih =>
    intro joinOk tid h
    by_cases ha : joinOk a
    · simp only [joinSeq, ha, if_pos] at h
      obtain ⟨hmem, hok⟩ := ih joinOk tid h
      exact ⟨List.mem_cons_of_mem a hmem, hok⟩
    · simp only [joinSeq, ha, if_neg] at h
      simp at h
      subst h
      exact ⟨List.mem_cons_self a t, by simpa using ha⟩

end ThreadPool

/-- Claim C1: for every pool constructed with a bound M and every trace of
submit and worker-retirement steps, `current_threads` never exceeds M;
`try_spawn_thread` only increments `current_threads` via a successful CAS
from an observed value strictly below M, and returns false without spawning
when the observed value has reached M. -/
theorem C1_current_threads_bounded (M : Nat) (steps : List ThreadPool.PoolStep) :
    (ThreadPool.run steps (ThreadPool.withMaxThreads M)).currentThreads ≤ M
    ∧ (∀ s : ThreadPool.PoolState, s.maxThreads ≤ s.currentThreads →
        ThreadPool.trySpawnThread s = (false, s))
    ∧ (∀ s : ThreadPool.PoolState, s.currentThreads < s.maxThreads →
        (ThreadPool.trySpawnThread s).1 = true
        ∧ (ThreadPool.trySpawnThread s).2.currentThreads = s.currentThreads + 1) := by
  refine ⟨?_, ?_, ?_⟩
  · exact ThreadPool.run_current_le steps (ThreadPool.withMaxThreads M)
      (by simp [ThreadPool.withMaxThreads])
  · intro s h
    simp [ThreadPool.trySpawnThread, h]
  · intro s h
    simp [ThreadPool.trySpawnThread, Nat.not_le.2 h, ThreadPool.spawnThread]

/-- Witness for C1 at M = 1, a two-submission trace, and concrete states for
the two `try_spawn_thread` facts. -/
theorem C1_current_threads_bounded_witness :
    (ThreadPool.run [ThreadPool.PoolStep.submitTask 0, ThreadPool.PoolStep.submitTask 1]
      (ThreadPool.withMaxThreads 1)).currentThreads ≤ 1
    ∧ ThreadPool.trySpawnThread (ThreadPool.withMaxThreads 0) =
        (false, ThreadPool.withMaxThreads 0)
    ∧ (ThreadPool.trySpawnThread (ThreadPool.withMaxThreads 1)).1 = true := by
  have h := C1_current_threads_bounded 1
    [ThreadPool.PoolStep.submitTask 0, ThreadPool.PoolStep.submitTask 1]
  exact ⟨h.1, h.2.1 (ThreadPool.withMaxThreads 0) (by decide),
    (h.2.2 (ThreadPool.withMaxThreads 1) (by decide)).1⟩

/-- Claim C2 counterexample: a worker whose bounded wait timed out retires
even though the queue is non-empty, where the claim requires Draining. -/
theorem C2_timeout_retires_counterexample :
    (ThreadPool.onWake true false [7] 1).phase = ThreadPool.WakePhase.retiring
    ∧ (ThreadPool.onWake true false [7] 1).phase ≠ ThreadPool.WakePhase.draining 7 := by
  decide

/-- Claim C2 (amended): on waking, a timed-out wait always retires, with the
queue and quit flag in any state; a notified wake drains the front task
(decrementing the idle counter) whenever the queue is non-empty, retires when
the queue is empty with quit set, resumes waiting when the queue is empty
with quit unset, and the `expect` on the pop never fires. -/
theorem C2_wake_decision (timedOut quitFlag : Bool) (queue : List Nat) (idle : Nat) :
    (timedOut = true → ThreadPool.onWake timedOut quitFlag queue idle =
      { phase := ThreadPool.WakePhase.retiring, queue := queue, idle := idle - 1 })
    ∧ (timedOut = false → ∀ t rest, queue = t :: rest →
        ThreadPool.onWake timedOut quitFlag queue idle =
          { phase := ThreadPool.WakePhase.draining t, queue := rest, idle := idle - 1 })
    ∧ (timedOut = false → quitFlag = true → queue = [] →
        ThreadPool.onWake timedOut quitFlag queue idle =
          { phase := ThreadPool.WakePhase.retiring, queue := [], idle := idle - 1 })
    ∧ (timedOut = false → quitFlag = false → queue = [] →
        ThreadPool.onWake timedOut quitFlag queue idle =
          { phase := ThreadPool.WakePhase.keepWaiting, queue := [], idle := idle })
    ∧ (ThreadPool.onWake timedOut quitFlag queue idle).phase ≠
        ThreadPool.WakePhase.panicked := by
  refine ⟨?_, ?_, ?_, ?_, ?_⟩
  · intro h; subst h; simp [ThreadPool.onWake]
  · intro h t rest hq; subst h; subst hq
    cases quitFlag <;> simp [ThreadPool.onWake]
  · intro h hq hqueue; subst h; subst hq; subst hqueue
    simp [ThreadPool.onWake]
  · intro h hq hqueue; subst h; subst hq; subst hqueue
    simp [ThreadPool.onWake]
  · cases timedOut <;> cases quitFlag <;> cases queue <;> simp [ThreadPool.onWake]

/-- Witness for C2 at concrete inputs: a timed-out wake and a notified wake
with one queued task. -/
theorem C2_wake_decision_witness :
    ThreadPool.onWake true false [3] 2 =
      { phase := ThreadPool.WakePhase.retiring, queue := [3], idle := 1 }
    ∧ ThreadPool.onWake false false [3] 2 =
      { phase := ThreadPool.WakePhase.draining 3, queue := [], idle := 1 } := by
  have h := C2_wake_decision true false [3] 2
  have h2 := C2_wake_decision false false [3] 2
  exact ⟨h.1 rfl, h2.2.1 rfl 3 [] rfl⟩

/-- Claim C3: `new` with an explicit bound of zero fails at construction
(the `assert!` panic, embedded as an error) and creates no thread; a
positive explicit bound, or an absent one, returns a pool, and a freshly
constructed pool has no threads. -/
theorem C3_new_zero_fails (cpuCount : Nat) :
    ThreadPool.new cpuCount (some 0) =
      Except.error "Thread pool size must be greater than 0"
    ∧ (∀ n, 0 < n → ThreadPool.new cpuCount (some n) =
        Except.ok (ThreadPool.withMaxThreads n))
    ∧ ThreadPool.new cpuCount none = Except.ok (ThreadPool.withMaxThreads cpuCount)
    ∧ (∀ m, (ThreadPool.withMaxThreads m).currentThreads = 0
        ∧ (ThreadPool.withMaxThreads m).registry = []) := by
  refine ⟨rfl, ?_, rfl, ?_⟩
  · intro n hn
    simp [ThreadPool.new, hn]
  · intro m
    exact ⟨rfl, rfl⟩

/-- Witness for C3 at a CPU count of 8 and an explicit bound of 2. -/
theorem C3_new_zero_fails_witness :
    ThreadPool.new 8 (some 0) =
      Except.error "Thread pool size must be greater than 0"
    ∧ ThreadPool.new 8 (some 2) = Except.ok (ThreadPool.withMaxThreads 2) := by
  have h := C3_new_zero_fails 8
  exact ⟨h.1, h.2.1 2 (by decide)⟩

/-- Claim C4: `wait_for_completion` snapshots the submitted counter and
returns exactly at the first poll at which the completed counter has reached
that snapshot — in particular immediately (poll index 0) when the snapshot
is zero — and at every earlier poll the completed counter was still below
the snapshot. -/
theorem C4_wait_for_completion_snapshot (completedAt : Nat → Nat) (fuel snapshot : Nat) :
    ThreadPool.wait_for_completion 0 completedAt (fuel + 1) = some 0
    ∧ (∀ k, ThreadPool.wait_for_completion snapshot completedAt fuel = some k →
        snapshot ≤ completedAt k ∧ ∀ j, j < k → completedAt j < snapshot) := by
  constructor
  · exact ThreadPool.pollUntil_here _ fuel 0 (by simp)
  · intro k h
    obtain ⟨hk, hall⟩ := ThreadPool.pollUntil_some _ fuel 0 k h
    refine ⟨by simpa using hk, fun j hj => ?_⟩
    have h2 := hall j (Nat.zero_le j) hj
    simp only [decide_eq_false_iff_not] at h2
    omega

/-- Witness for C4: with completed counts observed as 0, 1, 2, ... and a
snapshot of 2, the call returns at poll index 2. -/
theorem C4_wait_for_completion_snapshot_witness :
    2 ≤ (fun k => k) 2 ∧ ∀ j, j < 2 → (fun k => k) j < 2 := by
  have h := C4_wait_for_completion_snapshot (fun k => k) 3 2
  exact h.2 2 (by decide)

/-- Claim C5: pool shutdown sets the quit flag, wakes every blocked worker,
joins every handle still present in the registry exactly once (in registry
order, propagating a worker's fatal failure), and then blocks until the
active-task counter reaches zero, so no task is abandoned mid-run. -/
theorem C5_drop_sequence (s : ThreadPool.PoolState) (joinOk : Nat → Bool)
    (activeAt : Nat → Nat) (fuel : Nat) :
    ((ThreadPool.dropRun s joinOk activeAt fuel).2.2.1).quit = true
    ∧ ((∀ tid ∈ s.registry, joinOk tid = true) →
        (ThreadPool.dropRun s joinOk activeAt fuel).1 =
          ThreadPool.DropEvent.setQuitFlag :: ThreadPool.DropEvent.notifyAll ::
            (s.registry.map ThreadPool.DropEvent.joinThread
              ++ [ThreadPool.DropEvent.drainActive]))
    ∧ ((∀ tid ∈ s.registry, joinOk tid = true) → s.registry.Nodup →
        ∀ tid ∈ s.registry,
          (ThreadPool.dropRun s joinOk activeAt fuel).1.count
            (ThreadPool.DropEvent.joinThread tid) = 1)
    ∧ (∀ tid, (ThreadPool.dropRun s joinOk activeAt fuel).2.1 = Except.error tid →
        tid ∈ s.registry ∧ joinOk tid = false)
    ∧ (∀ k, (ThreadPool.dropRun s joinOk activeAt fuel).2.2.2 = some k →
        activeAt k = 0 ∧ ∀ j, j < k → 0 < activeAt j) := by
  refine ⟨?_, ?_, ?_, ?_, ?_⟩
  · simp only [ThreadPool.dropRun]
    cases hj : (ThreadPool.joinSeq s.registry joinOk).2 <;> rfl
  · intro hall
    simp only [ThreadPool.dropRun]
    rw [ThreadPool.joinSeq_all_ok s.registry joinOk hall]
  · intro hall hnodup tid hmem
    simp only [ThreadPool.dropRun]
    rw [ThreadPool.joinSeq_all_ok s.registry joinOk hall]
    simp only [List.count_cons, List.count_append]
    have h1 : (s.registry.map ThreadPool.DropEvent.joinThread).count
        (ThreadPool.DropEvent.joinThread tid) = 1 := by
      have hinj : Function.Injective ThreadPool.DropEvent.joinThread := by
        intro a b h
        injection h
      rw [List.count_map_of_injective s.registry ThreadPool.DropEvent.joinThread hinj tid]
      exact List.count_eq_one_of_mem hnodup hmem
    simp [h1]
  · intro tid h
    simp only [ThreadPool.dropRun] at h
    cases hj : (ThreadPool.joinSeq s.registry joinOk).2 with
    | error t2 =>
      rw [hj] at h
      simp at h
      subst h
      exact ThreadPool.joinSeq_error_mem s.registry joinOk t2 hj
    | ok u =>
      rw [hj] at h
      simp at h
  · intro k h
    simp only [ThreadPool.dropRun] at h
    cases hj : (ThreadPool.joinSeq s.registry joinOk).2 with
    | error t2 =>
      rw [hj] at h
      simp at h
    | ok u =>
      rw [hj] at h
      simp only at h
      obtain ⟨hk, hall⟩ := ThreadPool.pollUntil_some _ fuel 0 k h
      refine ⟨by simpa using hk, fun j hj2 => ?_⟩
      have h2 := hall j (Nat.zero_le j) hj2
      simp only [decide_eq_false_iff_not] at h2
      omega

/-- Witness for C5 at a concrete pool with two registered workers, all joins
succeeding, and one active task observed before the drain returns. -/
theorem C5_drop_sequence_witness :
    ((ThreadPool.dropRun
        { ThreadPool.withMaxThreads 2 with registry := [0, 1] }
        (fun _ => true) (fun k => 1 - k) 3).2.2.1).quit = true
    ∧ (ThreadPool.dropRun
        { ThreadPool.withMaxThreads 2 with registry := [0, 1] }
        (fun _ => true) (fun k => 1 - k) 3).1 =
        ThreadPool.DropEvent.setQuitFlag :: ThreadPool.DropEvent.notifyAll ::
          ([0, 1].map ThreadPool.DropEvent.joinThread
            ++ [ThreadPool.DropEvent.drainActive])
    ∧ (ThreadPool.dropRun
        { ThreadPool.withMaxThreads 2 with registry := [0, 1] }
        (fun _ => true) (fun k => 1 - k) 3).1.count
          (ThreadPool.DropEvent.joinThread 1) = 1
    ∧ ((fun k => 1 - k) 1 = 0 ∧ ∀ j, j < 1 → 0 < (fun k => 1 - k) j) := by
  have h := C5_drop_sequence { ThreadPool.withMaxThreads 2 with registry := [0, 1] }
    (fun _ => true) (fun k => 1 - k) 3
  refine ⟨h.1, h.2.1 (by decide), h.2.2.1 (by decide) (by decide) 1 (by decide), ?_⟩
  exact h.2.2.2.2 1 (by decide)

/-- Claim C6 counterexample: a panicking task does terminate the worker's
control loop — the loop result is an unwind with `active_tasks` left
incremented (not decremented back to 0) and `completed_tasks` not
incremented, where the claim requires the loop to continue with consistent
counters. -/
theorem C6_task_panic_counterexample :
    ThreadPool.runTask 0 0 true ≠ ThreadPool.LoopResult.continueLoop 0 1
    ∧ ThreadPool.runTask 0 0 true = ThreadPool.LoopResult.unwound 1 0 := by
  decide

/-- Claim C6 (amended): the worker executes `task()` with no panic
containment; a normally returning task leaves the loop running with
`active_tasks` restored and `completed_tasks` incremented, while a panicking
task unwinds out of the loop right after the `active_tasks` increment,
skipping both the decrement and the completed-counter update. -/
theorem C6_task_panic_unwinds (active completed : Nat) :
    ThreadPool.runTask active completed false =
      ThreadPool.LoopResult.continueLoop active (completed + 1)
    ∧ ThreadPool.runTask active completed true =
      ThreadPool.LoopResult.unwound (active + 1) completed := by
  exact ⟨rfl, rfl⟩

/-- Claim C7 counterexample: `Ord::cmp` on the linked list is
`iter().cmp(..)`, which is lexicographic, not length-first: the singleton
list [2] compares greater than the longer list [1, 5], while a length-first
ordering would compare it less. -/
theorem C7_cmp_not_length_first_counterexample :
    LinkList.cmp [2] [1, 5] = Ordering.gt
    ∧ LinkList.cmpByLengthFirst [2] [1, 5] = Ordering.lt := by
  decide

/-- Claim C7 (amended): structural equality compares length first and then
element-wise, holding exactly for equal element sequences; hashing feeds the
length and then each element in iteration order; but `cmp` is purely
lexicographic in iteration order — it agrees with equality, is antisymmetric,
and makes every strict prefix compare less, rather than ordering by length
first. -/
theorem C7_eq_lex_hash (a b : List Nat) :
    (LinkList.listEq a b = true ↔ a = b)
    ∧ LinkList.hashFeed a = a.length :: a
    ∧ (LinkList.cmp a b = Ordering.eq ↔ a = b)
    ∧ (LinkList.cmp a b = Ordering.lt ↔ LinkList.cmp b a = Ordering.gt)
    ∧ (∀ x ys, LinkList.cmp a (a ++ x :: ys) = Ordering.lt) := by
  exact ⟨LinkList.listEq_iff a b, rfl, LinkList.cmp_eq_iff a b,
    LinkList.cmp_lt_iff_gt a b, fun x ys => LinkList.cmp_prefix_lt a x ys⟩

/-- Claim C8 counterexample: on the empty list, `move_next` on a fresh cursor
yields an absent index (`len + 1 = 1` call), but the immediately following
call leaves the cursor in the ghost position instead of re-entering at
index 0. -/
theorem C8_empty_list_counterexample :
    (LinkList.moveNextN ([] : List Nat) 1).index = none
    ∧ (LinkList.moveNextN ([] : List Nat) 2).index ≠ some 0 := by
  decide

/-- Claim C8 (amended): for every non-empty linked list, starting from a
fresh cursor, the `len() + 1`-th `move_next` parks the cursor in the ghost
position (current and index both absent) and the immediately following
`move_next` re-enters the list at index 0. -/
theorem C8_cursor_cycle (l : List Nat) (h : l ≠ []) :
    (LinkList.moveNextN l (l.length + 1)).index = none
    ∧ (LinkList.moveNextN l (l.length + 1)).cur = none
    ∧ LinkList.moveNextN l (l.length + 2) = { cur := some 0, index := some 0 } :=
  LinkList.cursor_cycle l h

/-- Witness for C8 on the two-element list [3, 4]. -/
theorem C8_cursor_cycle_witness :
    (LinkList.moveNextN [3, 4] 3).index = none
    ∧ (LinkList.moveNextN [3, 4] 3).cur = none
    ∧ LinkList.moveNextN [3, 4] 4 = { cur := some 0, index := some 0 } :=
  C8_cursor_cycle [3, 4] (by decide)

/-- Claim C9: over every trace of push/pop operations at either end, the
length equals pushes minus successful pops; pushing at the back and popping
at the front restores the submission order (FIFO), and pushing at the front
and popping at the back does too; pushes always succeed (the length always
grows by one), and a pop on an empty list signals empty and leaves the list
unchanged. -/
theorem C9_deque_semantics (ops : List LinkList.DequeOp) (xs l : List Nat) (x : Nat) :
    ((LinkList.runCount ops []).1.length + (LinkList.runCount ops []).2.2 =
        (LinkList.runCount ops []).2.1)
    ∧ ((LinkList.runCount ops []).1.length =
        (LinkList.runCount ops []).2.1 - (LinkList.runCount ops []).2.2)
    ∧ LinkList.popAllFrontFuel xs.length (List.foldl LinkList.push_back [] xs) = xs
    ∧ LinkList.popAllBackFuel xs.length (List.foldl LinkList.push_front [] xs) = xs
    ∧ (LinkList.push_front l x).length = l.length + 1
    ∧ (LinkList.push_back l x).length = l.length + 1
    ∧ LinkList.pop_front ([] : List Nat) = (none, [])
    ∧ LinkList.pop_back ([] : List Nat) = (none, []) := by
  have hbal := LinkList.runCount_balance ops []
  simp only [List.length_nil, Nat.zero_add] at hbal
  refine ⟨hbal, by omega, ?_, ?_, by simp [LinkList.push_front],
    by simp [LinkList.push_back], rfl, rfl⟩
  · rw [LinkList.foldl_push_back xs []]
    simp only [List.nil_append]
    exact LinkList.popAllFrontFuel_eq xs.length xs (Nat.le_refl _)
  · rw [LinkList.foldl_push_front xs []]
    simp only [List.append_nil]
    rw [LinkList.popAllBackFuel_eq xs.length xs.reverse (by simp)]
    simp

/-- Claim C10: `with_max_threads` accepts every bound including zero without
failing; with a bound of zero `try_spawn_thread` always returns false with
no effect, `submit` still enqueues the task and increments the submitted
counter while creating no worker, and over every trace of steps the thread
count stays at zero. -/
theorem C10_zero_max_threads (s : ThreadPool.PoolState) (t : Nat)
    (steps : List ThreadPool.PoolStep) (m : Nat) :
    (ThreadPool.withMaxThreads m).maxThreads = m
    ∧ (s.maxThreads = 0 → ThreadPool.trySpawnThread s = (false, s))
    ∧ (s.maxThreads = 0 →
        (ThreadPool.submit s t).queue = s.queue ++ [t]
        ∧ (ThreadPool.submit s t).submittedTasks = s.submittedTasks + 1
        ∧ (ThreadPool.submit s t).currentThreads = s.currentThreads
        ∧ (ThreadPool.submit s t).registry = s.registry)
    ∧ (ThreadPool.run steps (ThreadPool.withMaxThreads 0)).currentThreads = 0 := by
  refine ⟨rfl, ?_, ?_, ?_⟩
  · intro h
    simp [ThreadPool.trySpawnThread, h]
  · intro h
    rw [ThreadPool.submit_maxZero s t h]
    exact ⟨rfl, rfl, rfl, rfl⟩
  · have h1 := ThreadPool.run_current_le steps (ThreadPool.withMaxThreads 0)
      (by simp [ThreadPool.withMaxThreads])
    have h0 : (ThreadPool.withMaxThreads 0).maxThreads = 0 := rfl
    omega

/-- Witness for C10 at a pool with a zero bound, one submission, and a
one-step trace. -/
theorem C10_zero_max_threads_witness :
    ThreadPool.trySpawnThread (ThreadPool.withMaxThreads 0) =
      (false, ThreadPool.withMaxThreads 0)
    ∧ (ThreadPool.submit (ThreadPool.withMaxThreads 0) 9).queue = [] ++ [9]
    ∧ (ThreadPool.submit (ThreadPool.withMaxThreads 0) 9).currentThreads = 0
    ∧ (ThreadPool.run [ThreadPool.PoolStep.submitTask 9]
        (ThreadPool.withMaxThreads 0)).currentThreads = 0 := by
  have h := C10_zero_max_threads (ThreadPool.withMaxThreads 0) 9
    [ThreadPool.PoolStep.submitTask 9] 0
  exact ⟨h.2.1 rfl, (h.2.2.1 rfl).1, (h.2.2.1 rfl).2.2.1, h.2.2.2⟩
